import Mathlib

/-!
Verification development for the QGIS processing script
`toolbox_prorata_surfacique_sum.py` (class `ProrataSurfacique`):
an area-weighted redistribution of numeric attributes between two polygon
layers.  The script is shallowly embedded below: its pure helpers become
Lean functions, the geometry engine (an external collaborator in the
design) is a parameter satisfying a small interface, Python floats are
modelled as exact rationals extended with the IEEE specials `nan` and
`inf`, and the driver loop becomes a structurally recursive state
transformer whose observable actions (info messages, progress values)
are recorded in ghost traces.
-/

/-! ## Python float values

CPython floats are modelled as exact rationals plus the non-finite
specials.  Finite arithmetic is idealised to exact rational arithmetic
(the properties proved below concern exact values, zeros and the
specials, not last-bit rounding). -/

inductive PyFloat : Type where
  | finite (q : ℚ)
  | inf (pos : Bool)
  | nan
deriving DecidableEq, Repr

/-- Addition on the float model: `nan` propagates, opposite infinities
give `nan`, finite values add exactly. -/
def pfAdd : PyFloat → PyFloat → PyFloat
  | .nan, _ => .nan
  | _, .nan => .nan
  | .finite a, .finite b => .finite (a + b)
  | .inf s, .finite _ => .inf s
  | .finite _, .inf t => .inf t
  | .inf s, .inf t => if s = t then .inf s else .nan

/-- Multiplication on the float model: `nan` propagates, `inf * 0` is
`nan`, signs multiply. -/
def pfMul : PyFloat → PyFloat → PyFloat
  | .nan, _ => .nan
  | _, .nan => .nan
  | .finite a, .finite b => .finite (a * b)
  | .inf s, .finite b => if b = 0 then .nan else .inf (s = decide (0 < b))
  | .finite a, .inf t => if a = 0 then .nan else .inf (t = decide (0 < a))
  | .inf s, .inf t => .inf (s = t)

/-- Division on the float model.  Division by the finite zero raises
`ZeroDivisionError` in CPython; the script guards every division with a
strictly positive divisor (see the claim about degenerate candidates),
so that branch is unreachable and is mapped to `nan` here. -/
def pfDiv : PyFloat → PyFloat → PyFloat
  | .nan, _ => .nan
  | _, .nan => .nan
  | .finite a, .finite b => if b = 0 then .nan else .finite (a / b)
  | .inf s, .finite b => if b = 0 then .nan else .inf (s = decide (0 < b))
  | .finite _, .inf _ => .finite 0
  | .inf _, .inf _ => .nan

/-! ## Raw attribute values

A QGIS attribute cell can hold a native numeric, a string, a QVariant
wrapper, Python `None`, or an arbitrary object (modelled with its
`str()` rendering). -/

inductive PyVal : Type where
  | none
  | int (n : ℤ)
  | float (x : PyFloat)
  | str (s : String)
  | qvariant (q : ℚ)
  | other (repr : String)
deriving DecidableEq, Repr

/-! ## CPython `float(str)` parsing

Model of the `float` constructor on strings over the grammar fragment
relevant here: surrounding whitespace, an optional sign, `inf`,
`infinity` and `nan` case-insensitively, and decimal literals
`digits [. digits] [e [sign] digits]` with at least one mantissa digit.
A decimal comma is not accepted (it raises `ValueError`), which is what
the script's comma-to-dot fallback relies on.

The parser works on the list of Unicode code points of the string
(`String` helper functions do not reduce well inside the kernel). -/

/-- Code points of a string. -/
def strCodes (s : String) : List ℕ :=
  s.data.map Char.toNat

/-- ASCII whitespace stripped by CPython `float` (space, tab, newline,
vertical tab, form feed, carriage return). -/
def isPySpace (c : ℕ) : Bool :=
  c = 32 ∨ c = 9 ∨ c = 10 ∨ c = 11 ∨ c = 12 ∨ c = 13

/-- ASCII decimal digit. -/
def isDigitCode (c : ℕ) : Bool :=
  48 ≤ c ∧ c ≤ 57

/-- Strip surrounding whitespace. -/
def trimCodes (cs : List ℕ) : List ℕ :=
  ((cs.dropWhile isPySpace).reverse.dropWhile isPySpace).reverse

/-- ASCII lower-casing (for the case-insensitive `inf`/`nan` forms). -/
def lowerCodes (cs : List ℕ) : List ℕ :=
  cs.map (fun c => if 65 ≤ c ∧ c ≤ 90 then c + 32 else c)

def digitsToNat (cs : List ℕ) : ℕ :=
  cs.foldl (fun a c => a * 10 + (c - 48)) 0

/-- Parse `digits [. digits]` (at least one digit overall; code 46 is
the decimal point). -/
def parseDecimal (cs : List ℕ) : Option ℚ :=
  let intPart := cs.takeWhile isDigitCode
  let rest := cs.dropWhile isDigitCode
  match rest with
  | [] => if intPart.isEmpty then none else some ((digitsToNat intPart : ℚ))
  | c :: fracs =>
    if c = 46 ∧ fracs.all isDigitCode ∧ ¬(intPart.isEmpty ∧ fracs.isEmpty) then
      some ((digitsToNat intPart : ℚ) + (digitsToNat fracs : ℚ) / (10 : ℚ) ^ fracs.length)
    else none

/-- Parse an exponent part `([+-])? digits` (codes 43 and 45 are the
signs). -/
def parseExp (cs : List ℕ) : Option ℤ :=
  match cs with
  | [] => none
  | c :: rest =>
    if c = 43 then
      if rest ≠ [] ∧ rest.all isDigitCode then some ((digitsToNat rest : ℤ)) else none
    else if c = 45 then
      if rest ≠ [] ∧ rest.all isDigitCode then some (-(digitsToNat rest : ℤ)) else none
    else if cs.all isDigitCode then some ((digitsToNat cs : ℤ)) else none

/-- Parse an unsigned numeric literal `mantissa [e exponent]`
(the input is already lower-cased; code 101 is `e`). -/
def parseFloatBody (cs : List ℕ) : Option ℚ :=
  let mant := cs.takeWhile (fun c => c ≠ 101)
  let rest := cs.dropWhile (fun c => c ≠ 101)
  match rest with
  | [] => parseDecimal mant
  | _ :: ecs => do
      let m ← parseDecimal mant
      let e ← parseExp ecs
      pure (m * (10 : ℚ) ^ e)

/-- CPython `float` on a code-point list (sign already handled by the
caller is not assumed: the optional sign is consumed here). -/
def pyFloatOfCodes (raw : List ℕ) : Option PyFloat :=
  let cs := lowerCodes (trimCodes raw)
  let signAndBody : Bool × List ℕ :=
    match cs with
    | c :: rest =>
      if c = 43 then (true, rest)
      else if c = 45 then (false, rest)
      else (true, cs)
    | [] => (true, [])
  let pos := signAndBody.1
  let body := signAndBody.2
  if body = [105, 110, 102] ∨ body = [105, 110, 102, 105, 110, 105, 116, 121] then
    some (.inf pos)
  else if body = [110, 97, 110] then some .nan
  else
    match parseFloatBody body with
    | some q => some (.finite (if pos then q else -q))
    | none => none

/-- Model of CPython `float(s)` for a string `s`: `some` is the parsed
value, `none` models the raised `ValueError`. -/
def pyFloatOfString (s : String) : Option PyFloat :=
  pyFloatOfCodes (strCodes s)

/-- `.replace(",", ".")` from the script on code points: the decimal
comma (44) becomes a decimal point (46). -/
def commaToDot (cs : List ℕ) : List ℕ :=
  cs.map (fun c => if c = 44 then 46 else c)

/-- Embedding of `ProrataSurfacique._safe_float`: convert any attribute
value to a float, in the script's order of attempts —
`None` gives `0.0`; then `float(value)` (succeeds on numerics and
parsable strings, raises `TypeError` on QVariant and opaque objects);
then `value.toDouble()[0]` (QVariant only, others raise
`AttributeError`); then `float(str(value).replace(",", "."))`; any
remaining failure gives `0.0`.  Total by construction: every branch
returns a value, mirroring the function's never-raises contract. -/
def safe_float : PyVal → PyFloat
  | .none => .finite 0
  | .int n => .finite (n : ℚ)
  | .float x => x
  | .qvariant q => .finite q
  | .str s =>
    match pyFloatOfString s with
    | some x => x
    | Option.none =>
      match pyFloatOfCodes (commaToDot (strCodes s)) with
      | some x => x
      | Option.none => .finite 0
  | .other r =>
    match pyFloatOfCodes (commaToDot (strCodes r)) with
    | some x => x
    | Option.none => .finite 0


/-! ## Geometry collaborator interface

The geometry engine (QGIS/GEOS) is an external collaborator: polygon
intersection, area, emptiness, bounding boxes and the bounding-box
overlap test used by the spatial index are parameters.  `G` is the type
of geometries, `B` the type of bounding boxes.  A null geometry result
(`QgsGeometry` that is falsy) is `Option.none`; areas are exact
rationals. -/

structure GeomOps (G B : Type) where
  isEmpty : G → Bool
  area : G → ℚ
  intersection : G → G → Option G
  intersects : G → G → Bool
  boundingBox : G → B
  boxIntersects : B → B → Bool

/-- A vector-layer feature: stable id, optional polygon geometry, and
named attributes in schema order. -/
structure Feature (G : Type) where
  fid : ℕ
  geom : Option G
  attrs : List (String × PyVal)
deriving DecidableEq

/-- `feat.attribute(name)`.  The script only looks up fields coming
from the intersecting layer schema, so the name is always present;
a missing name is mapped to the null attribute. -/
def Feature.attribute (f : Feature G) (name : String) : PyVal :=
  (((f.attrs.find? (fun p => p.1 = name)).map (fun p => p.2)).getD .none)

/-- `feat.attributes()`: the attribute vector in schema order. -/
def Feature.attributes (f : Feature G) : List PyVal :=
  f.attrs.map (fun p => p.2)

/-- Embedding of `buildSpatialIndex`: one bounding-box entry per
feature.  `QgsSpatialIndex.addFeature` skips features whose geometry is
null (they are never inserted and never returned). -/
def buildSpatialIndex (ops : GeomOps G B) (feats : List (Feature G)) : List (ℕ × B) :=
  feats.filterMap (fun f => f.geom.map (fun g => (f.fid, ops.boundingBox g)))

/-- `QgsSpatialIndex.intersects(bbox)`: identifiers of the indexed
entries whose bounding box overlaps the query box. -/
def indexIntersects (ops : GeomOps G B) (idx : List (ℕ × B)) (b : B) : List ℕ :=
  (idx.filter (fun e => ops.boxIntersects e.2 b)).map (fun e => e.1)

/-- Embedding of `get_intersecting_features`: features of the layer
matching the id filter whose (non-null) geometry exactly intersects the
given geometry.  An empty id list short-circuits to an empty result. -/
def get_intersecting_features (ops : GeomOps G B) (layer : List (Feature G))
    (fids : List ℕ) (geom : G) : List (Feature G) :=
  if fids = [] then []
  else
    layer.filter (fun f =>
      fids.contains f.fid &&
        (match f.geom with
         | some g => ops.intersects g geom
         | Option.none => false))

/-! ## Python dict on string keys

`prorata_values` is a Python dict; association lists with dict
insertion/update semantics model it (first insertion fixes the key
order, updates are in place). -/

/-- Dict lookup. -/
def dget (d : List (String × PyFloat)) (k : String) : Option PyFloat :=
  ((d.find? (fun p => p.1 = k)).map (fun p => p.2))

/-- Dict store: in-place update when the key exists, append otherwise. -/
def dset (d : List (String × PyFloat)) (k : String) (v : PyFloat) :
    List (String × PyFloat) :=
  if d.any (fun p => p.1 = k) then
    d.map (fun p => if p.1 = k then (k, v) else p)
  else d ++ [(k, v)]

/-- `{f: 0.0 for f in fields_to_prorate}`. -/
def dictInit (fields : List String) : List (String × PyFloat) :=
  fields.foldl (fun d f => dset d f (.finite 0)) []

/-! ## The overlay aggregator -/

/-- One iteration of the accumulation loop of `computeProrata` over a
candidate `inter` from `intersecting_feats`: compute the exact
intersection with the target geometry, skip the candidate when that
result is null or empty or when the candidate polygon area is not
strictly positive, otherwise add
`field_value * intersection_area / source_area` to every requested
field (left-associated, as in the script).  Candidates always carry a
non-null geometry because `get_intersecting_features` filtered them;
the null-geometry branch is unreachable. -/
def prorataStep (ops : GeomOps G B) (geom : G) (fields : List String)
    (d : List (String × PyFloat)) (inter : Feature G) : List (String × PyFloat) :=
  match inter.geom with
  | Option.none => d
  | some ig =>
    match ops.intersection ig geom with
    | Option.none => d
    | some interGeom =>
      if ops.isEmpty interGeom then d
      else
        let interArea := ops.area ig
        if interArea ≤ 0 then d
        else
          let area := ops.area interGeom
          fields.foldl (fun d' field =>
            let fieldValue := safe_float (inter.attribute field)
            dset d' field
              (pfAdd ((dget d' field).getD (.finite 0))
                (pfDiv (pfMul fieldValue (.finite area)) (.finite interArea)))) d

/-- Embedding of `computeProrata`: `none` when the target geometry is
null or empty; otherwise query the spatial index with the target
bounding box, keep the candidates that exactly intersect, and fold the
accumulation step over them starting from the all-zero dict. -/
def computeProrata (ops : GeomOps G B) (feat : Feature G)
    (interLayer : List (Feature G)) (spatialIndex : List (ℕ × B))
    (fieldsToProrate : List String) : Option (List (String × PyFloat)) :=
  match feat.geom with
  | Option.none => none
  | some geom =>
    if ops.isEmpty geom then none
    else
      let interIds := indexIntersects ops spatialIndex (ops.boundingBox geom)
      let intersectingFeats := get_intersecting_features ops interLayer interIds geom
      let prorataValues := dictInit fieldsToProrate
      some (intersectingFeats.foldl (prorataStep ops geom fieldsToProrate) prorataValues)

/-! ## Rounding

Python `round` rounds half to even; `round(x)` returns an integer,
`round(x, 5)` a float with five decimals.  The quotient fed to `round`
is computed exactly here. -/

/-- Python `round(q)`: nearest integer, ties to the even one. -/
def pyRound (q : ℚ) : ℤ :=
  if q - (⌊q⌋ : ℚ) < 1/2 then ⌊q⌋
  else if (1/2 : ℚ) < q - (⌊q⌋ : ℚ) then ⌊q⌋ + 1
  else if ⌊q⌋ % 2 = 0 then ⌊q⌋ else ⌊q⌋ + 1

/-- Python `round(x, 5)` on the float model: the specials are returned
unchanged, finite values are rounded at the fifth decimal. -/
def pyRound5 : PyFloat → PyFloat
  | .finite q => .finite ((pyRound (q * 10 ^ 5) : ℚ) / 10 ^ 5)
  | .inf s => .inf s
  | .nan => .nan

/-! ## Output schema and output features -/

/-- Embedding of `prepareOutputFields`: the input layer field names
extended with `<field>_prorata` for every requested field that is not
already present (`indexFromName == -1`). -/
def prepareOutputFields (inputFields : List String) (fieldsToProrate : List String) :
    List String :=
  fieldsToProrate.foldl (fun outputFields f =>
    let fieldName := f ++ "_prorata"
    if outputFields.contains fieldName then outputFields
    else outputFields ++ [fieldName]) inputFields

/-- An output record: geometry copied from the target feature and the
extended attribute vector. -/
structure OutFeature (G : Type) where
  geom : Option G
  attrs : List PyVal
deriving DecidableEq

/-- Embedding of `createProrataFeature`: pad the original attribute
vector with nulls up to the output schema length, then write the
rounded accumulator into each `<field>_prorata` slot.  The slot always
exists because the schema was built by `prepareOutputFields`; QGIS
would reject the write otherwise, and that unreachable branch leaves
the vector unchanged. -/
def createProrataFeature (feat : Feature G) (outputFields : List String)
    (prorataValues : List (String × PyFloat)) : OutFeature G :=
  let attrs := feat.attributes
  let attrsExtended := attrs ++ List.replicate (outputFields.length - attrs.length) PyVal.none
  let finalAttrs := prorataValues.foldl (fun a p =>
    match outputFields.indexOf? (p.1 ++ "_prorata") with
    | some idx => a.set idx (.float (pyRound5 p.2))
    | Option.none => a) attrsExtended
  ⟨feat.geom, finalAttrs⟩

/-! ## Feedback channel

`QgsProcessingFeedback` is a host collaborator that may be absent
(`None`) and whose every call may raise.  Each method is an oracle
indexed by the number of calls made to the object so far, so one run
can observe any behaviour sequence.  `FbResult.raise` models a raised
exception. -/

inductive FbResult (α : Type) : Type where
  | ok (a : α)
  | raise
deriving DecidableEq

structure Feedback : Type where
  pushInfoB : ℕ → FbResult Unit
  isCanceledB : ℕ → FbResult Bool
  setProgressB : ℕ → FbResult Unit

/-- The informational messages the script pushes, by call site.  The
rendered French strings of the script are noted next to each
constructor; the trace records which call site fired with which
argument. -/
inductive InfoMsg : Type where
  | fieldsList
  | indexCreation
  | decile (p : ℤ)
  | finalization
  | summary (nb : ℕ)
deriving DecidableEq

/-- State threaded through `processAlgorithm`: the success counter
`nb_entites`, the decile guard `last_progress`, the output sink
contents, the ghost trace of attempted info messages, the ghost trace
of values passed to `feedback.setProgress`, the feedback call counter,
and the two outcome flags (`canceled`: the loop ended via the
cancellation break; `aborted`: an unhandled exception escaped from the
loop, i.e. from the unguarded `setProgress` call). -/
structure LoopState (G : Type) : Type where
  nb : ℕ := 0
  lastProgress : ℤ := -1
  sink : List (OutFeature G) := []
  infoTrace : List InfoMsg := []
  progressTrace : List ℤ := []
  fbCtr : ℕ := 0
  canceled : Bool := false
  aborted : Bool := false
deriving DecidableEq

/-- Embedding of `_safe_push_info`: nothing happens on an absent
feedback; otherwise the call is made and any raised exception is
swallowed, so the state is the same whether the call succeeded or
raised.  The attempted message is recorded in the ghost trace in every
case (it identifies the call site being reached). -/
def safe_push_info (fb : Option Feedback) (m : InfoMsg) (s : LoopState G) : LoopState G :=
  let s' := { s with infoTrace := s.infoTrace ++ [m] }
  match fb with
  | Option.none => s'
  | some f =>
    match f.pushInfoB s.fbCtr with
    | .ok _ => { s' with fbCtr := s.fbCtr + 1 }
    | .raise => { s' with fbCtr := s.fbCtr + 1 }

/-- Embedding of `_safe_is_canceled`: `false` on an absent feedback and
on a raised exception, the reported flag otherwise. -/
def safe_is_canceled (fb : Option Feedback) (s : LoopState G) : Bool × LoopState G :=
  match fb with
  | Option.none => (false, s)
  | some f =>
    match f.isCanceledB s.fbCtr with
    | .ok b => (b, { s with fbCtr := s.fbCtr + 1 })
    | .raise => (false, { s with fbCtr := s.fbCtr + 1 })

/-- The `feedback.setProgress(progress_percent)` call of the driver
loop: guarded only by `feedback is not None`, NOT by a safe wrapper.
The boolean result reports whether the call raised; the passed value is
recorded in the ghost trace whenever the call is made. -/
def doSetProgress (fb : Option Feedback) (p : ℤ) (s : LoopState G) : Bool × LoopState G :=
  match fb with
  | Option.none => (false, s)
  | some f =>
    let s' := { s with progressTrace := s.progressTrace ++ [p], fbCtr := s.fbCtr + 1 }
    match f.setProgressB s.fbCtr with
    | .ok _ => (false, s')
    | .raise => (true, s')

/-- `round((i + 1) / total_features * 100)` of the driver loop. -/
def progressPercent (total i : ℕ) : ℤ :=
  pyRound (((i : ℚ) + 1) / (total : ℚ) * 100)

/-- Static data of one driver run: geometry engine, feedback object,
intersecting layer, spatial index, requested fields, output schema and
`total_features = input_layer.featureCount()`. -/
structure LoopCtx (G B : Type) : Type where
  ops : GeomOps G B
  fb : Option Feedback
  interLayer : List (Feature G)
  spatialIndex : List (ℕ × B)
  fieldsToProrate : List String
  outputFields : List String
  total : ℕ

/-- `sink.addFeature(new_feat, QgsFeatureSink.FastInsert)` followed by
`nb_entites += 1`. -/
def stepSink (ctx : LoopCtx G B) (feat : Feature G) (prorataValues : List (String × PyFloat))
    (s : LoopState G) : LoopState G :=
  { s with
    sink := s.sink ++ [createProrataFeature feat ctx.outputFields prorataValues],
    nb := s.nb + 1 }

/-- The decile info message, pushed only at multiples of ten that
differ from `last_progress`, which is then updated. -/
def stepDecile (ctx : LoopCtx G B) (p : ℤ) (s : LoopState G) : LoopState G :=
  if p % 10 = 0 ∧ p ≠ s.lastProgress then
    { safe_push_info ctx.fb (.decile p) s with lastProgress := p }
  else s

/-- The finalization message, pushed when `i + 1 == total_features`. -/
def stepFinal (ctx : LoopCtx G B) (i : ℕ) (s : LoopState G) : LoopState G :=
  if i + 1 = ctx.total then safe_push_info ctx.fb .finalization s else s

/-- The driver loop of `processAlgorithm`
(`for i, feat in enumerate(input_layer.getFeatures())`), one feature at
a time with its enumeration index: cancellation check and break;
`computeProrata` and skip on absence; output record appended to the
sink and success counter incremented; progress percentage passed to the
unguarded `setProgress` (a raise escapes: the loop stops with the
`aborted` flag); decile info message under the `last_progress` guard;
finalization message when `i + 1 == total_features`. -/
def runLoop (ctx : LoopCtx G B) : ℕ → List (Feature G) → LoopState G → LoopState G
  | _, [], s => s
  | i, feat :: rest, s =>
    let cs := safe_is_canceled ctx.fb s
    if cs.1 then { cs.2 with canceled := true }
    else
      match computeProrata ctx.ops feat ctx.interLayer ctx.spatialIndex ctx.fieldsToProrate with
      | Option.none => runLoop ctx (i + 1) rest cs.2
      | some prorataValues =>
        let s2 := stepSink ctx feat prorataValues cs.2
        let p := progressPercent ctx.total i
        let dp := doSetProgress ctx.fb p s2
        if dp.1 then { dp.2 with aborted := true }
        else runLoop ctx (i + 1) rest (stepFinal ctx i (stepDecile ctx p dp.2))

/-- Input data of one `processAlgorithm` run: the two layers (already
loaded; a layer that fails to load aborts before any processing and is
out of scope here), the input layer schema, and the requested fields. -/
structure AlgoInput (G : Type) : Type where
  inputSchema : List String
  inputFeatures : List (Feature G)
  interFeatures : List (Feature G)
  fieldsToProrate : List String

/-- Embedding of `processAlgorithm`: the emptiness precondition check
(`QgsProcessingException`, modelled as `none`), the two pre-loop info
messages, spatial index construction, output schema preparation, the
driver loop from index 0, and the final summary message — which the
script only reaches when the loop did not raise. -/
def processAlgorithm (ops : GeomOps G B) (fb : Option Feedback) (inp : AlgoInput G) :
    Option (LoopState G) :=
  if inp.inputFeatures.isEmpty || inp.interFeatures.isEmpty then none
  else
    let s1 := safe_push_info fb .fieldsList ({} : LoopState G)
    let s2 := safe_push_info fb .indexCreation s1
    let spatialIndex := buildSpatialIndex ops inp.interFeatures
    let outputFields := prepareOutputFields inp.inputSchema inp.fieldsToProrate
    let ctx : LoopCtx G B :=
      ⟨ops, fb, inp.interFeatures, spatialIndex, inp.fieldsToProrate, outputFields,
        inp.inputFeatures.length⟩
    let send := runLoop ctx 0 inp.inputFeatures s2
    some (if send.aborted then send else safe_push_info fb (.summary send.nb) send)

/-! ## A concrete geometry instance

A small executable instance of the collaborator interface, used for
concrete runs: a geometry is a finite set of unit cells, area is the
cell count, intersection is set intersection, and bounding boxes are
the geometries themselves. -/

def cellOps : GeomOps (Finset ℕ) (Finset ℕ) where
  isEmpty g := decide (g = ∅)
  area g := (g.card : ℚ)
  intersection g₁ g₂ := some (g₁ ∩ g₂)
  intersects g₁ g₂ := decide (g₁ ∩ g₂ ≠ ∅)
  boundingBox g := g
  boxIntersects b₁ b₂ := decide (b₁ ∩ b₂ ≠ ∅)

/-- A target feature covering cells 0 and 1. -/
def tMain : Feature (Finset ℕ) := ⟨0, some ({0, 1} : Finset ℕ), [("name", .str ("t"))]⟩

/-- A target feature with an empty geometry. -/
def tEmpty : Feature (Finset ℕ) := ⟨7, some (∅ : Finset ℕ), [("name", .str ("e"))]⟩

/-- Source feature covering cell 0 with `pop = 5`. -/
def srcLeft : Feature (Finset ℕ) := ⟨1, some ({0} : Finset ℕ), [("pop", .int 5)]⟩

/-- Source feature covering cell 1 with `pop = 5`. -/
def srcRight : Feature (Finset ℕ) := ⟨2, some ({1} : Finset ℕ), [("pop", .int 5)]⟩

/-- Source feature carrying the string `"nan"` in `pop`. -/
def srcNan : Feature (Finset ℕ) := ⟨3, some ({0} : Finset ℕ), [("pop", .str ("nan"))]⟩

/-- A feedback object whose calls all succeed and never cancel. -/
def wfFeedback : Feedback :=
  ⟨fun _ => .ok (), fun _ => .ok false, fun _ => .ok ()⟩

/-- A feedback object whose `setProgress` raises (e.g. the underlying
C++ object was deleted); `pushInfo` and `isCanceled` behave normally. -/
def raisingFeedback : Feedback :=
  ⟨fun _ => .ok (), fun _ => .ok false, fun _ => .raise⟩

/-- Run input: empty-geometry target first, then the real target. -/
def demoInputA : AlgoInput (Finset ℕ) :=
  ⟨["name"], [tEmpty, tMain], [srcLeft, srcRight], ["pop"]⟩

/-- Run input: the real target first, the empty-geometry one last. -/
def demoInputB : AlgoInput (Finset ℕ) :=
  ⟨["name"], [tMain, tEmpty], [srcLeft, srcRight], ["pop"]⟩


/-! ## Derived definitions used by the claims -/

/-- The target feature has a non-null, non-empty geometry (the
condition under which the driver writes an output record). -/
def featNonEmpty (ops : GeomOps G B) (f : Feature G) : Bool :=
  match f.geom with
  | Option.none => false
  | some g => !ops.isEmpty g

/-- The record written for one target feature of the run. -/
def builtFeature (ctx : LoopCtx G B) (f : Feature G) : OutFeature G :=
  createProrataFeature f ctx.outputFields
    ((computeProrata ctx.ops f ctx.interLayer ctx.spatialIndex ctx.fieldsToProrate).getD [])

/-- A candidate that actually contributes to the accumulators: its
geometry is present, its intersection with the target is non-null and
non-empty, and its own polygon area is strictly positive. -/
def goodCandidate (ops : GeomOps G B) (geom : G) (f : Feature G) : Bool :=
  match f.geom with
  | Option.none => false
  | some g =>
    match ops.intersection g geom with
    | Option.none => false
    | some interGeom => !ops.isEmpty interGeom && decide (0 < ops.area g)

/-- The loop context assembled by `processAlgorithm`. -/
def algoCtx (ops : GeomOps G B) (fb : Option Feedback) (inp : AlgoInput G) : LoopCtx G B :=
  ⟨ops, fb, inp.interFeatures, buildSpatialIndex ops inp.interFeatures,
    inp.fieldsToProrate, prepareOutputFields inp.inputSchema inp.fieldsToProrate,
    inp.inputFeatures.length⟩

/-- The run state after the two pre-loop info messages. -/
def algoStart (fb : Option Feedback) : LoopState G :=
  safe_push_info fb .indexCreation (safe_push_info fb .fieldsList ({} : LoopState G))

/-- A degenerate candidate: its cells are disjoint from the target, so
its exact intersection with the target is the empty geometry. -/
def srcFar : Feature (Finset ℕ) := ⟨4, some ({5} : Finset ℕ), [("pop", .int 9)]⟩

/-- The final state of the run on `demoInputA` with the well-behaved
feedback object. -/
def demoFinalA : LoopState (Finset ℕ) :=
  (processAlgorithm cellOps (some wfFeedback) demoInputA).getD {}

/-! ## Dict lemmas -/

theorem find?_update_self (d : List (String × PyFloat)) (k : String) (v : PyFloat)
    (hk : d.any (fun p => p.1 = k) = true) :
    (d.map (fun p => if p.1 = k then (k, v) else p)).find? (fun p => p.1 = k)
      = some (k, v) := by
  induction d with
  | nil => simp at hk
  | cons a tl ih =>
    by_cases h : a.1 = k
    · simp [h, List.find?]
    · simp only [List.any_cons, h, decide_eq_true_eq, Bool.false_or] at hk
      simp [List.find?, h, ih hk]

theorem find?_update_ne (d : List (String × PyFloat)) (k k' : String) (v : PyFloat)
    (hne : k' ≠ k) :
    (d.map (fun p => if p.1 = k then (k, v) else p)).find? (fun p => p.1 = k')
      = d.find? (fun p => p.1 = k') := by
  induction d with
  | nil => simp
  | cons a tl ih =>
    simp only [List.map_cons]
    by_cases h : a.1 = k
    · rw [if_pos h]
      have h1 : ¬((k, v).1 = k') := fun hh => hne (Eq.symm hh)
      have h2 : ¬(a.1 = k') := by rw [h]; exact fun hh => hne hh.symm
      rw [List.find?_cons_of_neg _ (by simpa using h1),
        List.find?_cons_of_neg _ (by simpa using h2), ih]
    · rw [if_neg h]
      by_cases h2 : a.1 = k'
      · rw [List.find?_cons_of_pos _ (by simpa using h2),
          List.find?_cons_of_pos _ (by simpa using h2)]
      · rw [List.find?_cons_of_neg _ (by simpa using h2),
          List.find?_cons_of_neg _ (by simpa using h2), ih]

theorem dget_dset (d : List (String × PyFloat)) (k k' : String) (v : PyFloat) :
    dget (dset d k v) k' = if k' = k then some v else dget d k' := by
  unfold dset
  by_cases hk : d.any (fun p => p.1 = k) = true
  · rw [if_pos hk]
    by_cases he : k' = k
    · subst he
      simp [dget, find?_update_self d k' v hk]
    · simp [dget, find?_update_ne d k k' v he, he]
  · rw [if_neg hk]
    have hnone : d.find? (fun p => p.1 = k) = none := by
      rw [List.find?_eq_none]
      intro p hp
      simp only [decide_eq_true_eq]
      intro hpk
      exact hk (List.any_eq_true.2 ⟨p, hp, by simp [hpk]⟩)
    by_cases he : k' = k
    · subst he
      simp [dget, List.find?_append, hnone, List.find?]
    · simp only [dget, List.find?_append, he, if_false]
      have hne2 : ¬(k = k') := fun hh => he hh.symm
      cases hfd : d.find? (fun p => p.1 = k') with
      | none => simp [List.find?, hne2]
      | some p => simp

theorem dget_dictInit_aux (fields : List String) :
    ∀ d f, (f ∈ fields ∨ dget d f = some (.finite 0)) →
      dget (fields.foldl (fun d g => dset d g (.finite 0)) d) f = some (.finite 0) := by
  induction fields with
  | nil =>
    intro d f h
    rcases h with h | h
    · cases h
    · simpa using h
  | cons a tl ih =>
    intro d f h
    simp only [List.foldl_cons]
    apply ih
    by_cases hf : f ∈ tl
    · exact Or.inl hf
    · right
      rw [dget_dset]
      rcases h with h | h
      · rcases List.mem_cons.1 h with h | h
        · simp [h]
        · exact absurd h hf
      · by_cases hfa : f = a
        · simp [hfa]
        · simp [hfa, h]

theorem dget_dictInit (fields : List String) (f : String) (hf : f ∈ fields) :
    dget (dictInit fields) f = some (.finite 0) :=
  dget_dictInit_aux fields [] f (Or.inl hf)

/-! ## Rounding lemmas -/

theorem pyRound_ge_floor (q : ℚ) : ⌊q⌋ ≤ pyRound q := by
  unfold pyRound
  split_ifs <;> omega

theorem pyRound_le_floor_add_one (q : ℚ) : pyRound q ≤ ⌊q⌋ + 1 := by
  unfold pyRound
  split_ifs <;> omega

theorem pyRound_mono {q r : ℚ} (h : q ≤ r) : pyRound q ≤ pyRound r := by
  rcases lt_or_le ⌊q⌋ ⌊r⌋ with hf | hf
  · calc pyRound q ≤ ⌊q⌋ + 1 := pyRound_le_floor_add_one q
      _ ≤ ⌊r⌋ := by omega
      _ ≤ pyRound r := pyRound_ge_floor r
  · have hfe : ⌊q⌋ = ⌊r⌋ := le_antisymm (Int.floor_mono h) hf
    have hfr : q - (⌊q⌋ : ℚ) ≤ r - (⌊r⌋ : ℚ) := by
      rw [hfe]
      linarith
    unfold pyRound
    rw [hfe]
    split_ifs <;> first | omega | linarith

theorem pyRound_nonneg {q : ℚ} (h : 0 ≤ q) : 0 ≤ pyRound q := by
  have : (0 : ℤ) ≤ ⌊q⌋ := Int.floor_nonneg.2 h
  have := pyRound_ge_floor q
  omega

theorem pyRound_hundred : pyRound 100 = 100 := by
  have h1 : ⌊(100 : ℚ)⌋ = 100 := by norm_num
  unfold pyRound
  rw [h1]
  norm_num

theorem progressPercent_nonneg (total i : ℕ) : 0 ≤ progressPercent total i := by
  apply pyRound_nonneg
  positivity

theorem progressPercent_le_hundred (total i : ℕ) (h : i + 1 ≤ total) :
    progressPercent total i ≤ 100 := by
  have htpos : (0 : ℚ) < (total : ℚ) := by
    have : 0 < total := by omega
    exact_mod_cast this
  have harg : ((i : ℚ) + 1) / (total : ℚ) * 100 ≤ 100 := by
    have hle : ((i : ℚ) + 1) ≤ (total : ℚ) := by exact_mod_cast h
    have : ((i : ℚ) + 1) / (total : ℚ) ≤ 1 := by
      rw [div_le_one htpos]
      exact hle
    nlinarith
  calc progressPercent total i ≤ pyRound 100 := pyRound_mono harg
    _ = 100 := pyRound_hundred

theorem progressPercent_mono (total i : ℕ) :
    progressPercent total i ≤ progressPercent total (i + 1) := by
  apply pyRound_mono
  have h1 : ((i : ℚ) + 1) / (total : ℚ) ≤ (((i + 1 : ℕ) : ℚ) + 1) / (total : ℚ) := by
    gcongr
    linarith
  exact mul_le_mul_of_nonneg_right h1 (by norm_num)

/-! ## Projection lemmas for the loop helpers

Each feedback helper only touches the call counter, its own ghost trace
and nothing else; these equations drive the loop inductions. -/

theorem spi_infoTrace (fb : Option Feedback) (m : InfoMsg) (s : LoopState G) :
    (safe_push_info fb m s).infoTrace = s.infoTrace ++ [m] := by
  cases fb with
  | none => rfl
  | some f => cases h : f.pushInfoB s.fbCtr <;> simp [safe_push_info, h]

theorem spi_sink (fb : Option Feedback) (m : InfoMsg) (s : LoopState G) :
    (safe_push_info fb m s).sink = s.sink := by
  cases fb with
  | none => rfl
  | some f => cases h : f.pushInfoB s.fbCtr <;> simp [safe_push_info, h]

theorem spi_nb (fb : Option Feedback) (m : InfoMsg) (s : LoopState G) :
    (safe_push_info fb m s).nb = s.nb := by
  cases fb with
  | none => rfl
  | some f => cases h : f.pushInfoB s.fbCtr <;> simp [safe_push_info, h]

theorem spi_progressTrace (fb : Option Feedback) (m : InfoMsg) (s : LoopState G) :
    (safe_push_info fb m s).progressTrace = s.progressTrace := by
  cases fb with
  | none => rfl
  | some f => cases h : f.pushInfoB s.fbCtr <;> simp [safe_push_info, h]

theorem spi_canceled (fb : Option Feedback) (m : InfoMsg) (s : LoopState G) :
    (safe_push_info fb m s).canceled = s.canceled := by
  cases fb with
  | none => rfl
  | some f => cases h : f.pushInfoB s.fbCtr <;> simp [safe_push_info, h]

theorem spi_aborted (fb : Option Feedback) (m : InfoMsg) (s : LoopState G) :
    (safe_push_info fb m s).aborted = s.aborted := by
  cases fb with
  | none => rfl
  | some f => cases h : f.pushInfoB s.fbCtr <;> simp [safe_push_info, h]

theorem sic_infoTrace (fb : Option Feedback) (s : LoopState G) :
    (safe_is_canceled fb s).2.infoTrace = s.infoTrace := by
  cases fb with
  | none => rfl
  | some f => cases h : f.isCanceledB s.fbCtr <;> simp [safe_is_canceled, h]

theorem sic_sink (fb : Option Feedback) (s : LoopState G) :
    (safe_is_canceled fb s).2.sink = s.sink := by
  cases fb with
  | none => rfl
  | some f => cases h : f.isCanceledB s.fbCtr <;> simp [safe_is_canceled, h]

theorem sic_nb (fb : Option Feedback) (s : LoopState G) :
    (safe_is_canceled fb s).2.nb = s.nb := by
  cases fb with
  | none => rfl
  | some f => cases h : f.isCanceledB s.fbCtr <;> simp [safe_is_canceled, h]

theorem sic_progressTrace (fb : Option Feedback) (s : LoopState G) :
    (safe_is_canceled fb s).2.progressTrace = s.progressTrace := by
  cases fb with
  | none => rfl
  | some f => cases h : f.isCanceledB s.fbCtr <;> simp [safe_is_canceled, h]

theorem sic_canceled (fb : Option Feedback) (s : LoopState G) :
    (safe_is_canceled fb s).2.canceled = s.canceled := by
  cases fb with
  | none => rfl
  | some f => cases h : f.isCanceledB s.fbCtr <;> simp [safe_is_canceled, h]

theorem sic_aborted (fb : Option Feedback) (s : LoopState G) :
    (safe_is_canceled fb s).2.aborted = s.aborted := by
  cases fb with
  | none => rfl
  | some f => cases h : f.isCanceledB s.fbCtr <;> simp [safe_is_canceled, h]

theorem dsp_infoTrace (fb : Option Feedback) (p : ℤ) (s : LoopState G) :
    (doSetProgress fb p s).2.infoTrace = s.infoTrace := by
  cases fb with
  | none => rfl
  | some f => cases h : f.setProgressB s.fbCtr <;> simp [doSetProgress, h]

theorem dsp_sink (fb : Option Feedback) (p : ℤ) (s : LoopState G) :
    (doSetProgress fb p s).2.sink = s.sink := by
  cases fb with
  | none => rfl
  | some f => cases h : f.setProgressB s.fbCtr <;> simp [doSetProgress, h]

theorem dsp_nb (fb : Option Feedback) (p : ℤ) (s : LoopState G) :
    (doSetProgress fb p s).2.nb = s.nb := by
  cases fb with
  | none => rfl
  | some f => cases h : f.setProgressB s.fbCtr <;> simp [doSetProgress, h]

theorem dsp_canceled (fb : Option Feedback) (p : ℤ) (s : LoopState G) :
    (doSetProgress fb p s).2.canceled = s.canceled := by
  cases fb with
  | none => rfl
  | some f => cases h : f.setProgressB s.fbCtr <;> simp [doSetProgress, h]

theorem dsp_aborted (fb : Option Feedback) (p : ℤ) (s : LoopState G) :
    (doSetProgress fb p s).2.aborted = s.aborted := by
  cases fb with
  | none => rfl
  | some f => cases h : f.setProgressB s.fbCtr <;> simp [doSetProgress, h]

theorem dsp_lastProgress (fb : Option Feedback) (p : ℤ) (s : LoopState G) :
    (doSetProgress fb p s).2.lastProgress = s.lastProgress := by
  cases fb with
  | none => rfl
  | some f => cases h : f.setProgressB s.fbCtr <;> simp [doSetProgress, h]

theorem dsp_progressTrace (fb : Option Feedback) (p : ℤ) (s : LoopState G) :
    (doSetProgress fb p s).2.progressTrace
      = s.progressTrace ++ (if fb.isSome then [p] else []) := by
  cases fb with
  | none => simp [doSetProgress]
  | some f => cases h : f.setProgressB s.fbCtr <;> simp [doSetProgress, h]

/-! ## Absence of a prorata result -/

theorem computeProrata_eq_none_iff (ops : GeomOps G B) (feat : Feature G)
    (interLayer : List (Feature G)) (spatialIndex : List (ℕ × B))
    (fields : List String) :
    computeProrata ops feat interLayer spatialIndex fields = none
      ↔ featNonEmpty ops feat = false := by
  unfold computeProrata featNonEmpty
  cases hg : feat.geom with
  | none => simp
  | some g =>
    by_cases he : ops.isEmpty g
    · simp [he]
    · simp [he]

/-! ## Step and loop equations -/

theorem stepSink_sink (ctx : LoopCtx G B) (f : Feature G) (pv : List (String × PyFloat))
    (s : LoopState G) :
    (stepSink ctx f pv s).sink = s.sink ++ [createProrataFeature f ctx.outputFields pv] := rfl

theorem stepSink_nb (ctx : LoopCtx G B) (f : Feature G) (pv : List (String × PyFloat))
    (s : LoopState G) : (stepSink ctx f pv s).nb = s.nb + 1 := rfl

theorem stepSink_infoTrace (ctx : LoopCtx G B) (f : Feature G) (pv : List (String × PyFloat))
    (s : LoopState G) : (stepSink ctx f pv s).infoTrace = s.infoTrace := rfl

theorem stepSink_progressTrace (ctx : LoopCtx G B) (f : Feature G)
    (pv : List (String × PyFloat)) (s : LoopState G) :
    (stepSink ctx f pv s).progressTrace = s.progressTrace := rfl

theorem stepSink_canceled (ctx : LoopCtx G B) (f : Feature G) (pv : List (String × PyFloat))
    (s : LoopState G) : (stepSink ctx f pv s).canceled = s.canceled := rfl

theorem stepSink_aborted (ctx : LoopCtx G B) (f : Feature G) (pv : List (String × PyFloat))
    (s : LoopState G) : (stepSink ctx f pv s).aborted = s.aborted := rfl

theorem stepDecile_sink (ctx : LoopCtx G B) (p : ℤ) (s : LoopState G) :
    (stepDecile ctx p s).sink = s.sink := by
  unfold stepDecile
  split <;> simp [spi_sink]

theorem stepDecile_nb (ctx : LoopCtx G B) (p : ℤ) (s : LoopState G) :
    (stepDecile ctx p s).nb = s.nb := by
  unfold stepDecile
  split <;> simp [spi_nb]

theorem stepDecile_progressTrace (ctx : LoopCtx G B) (p : ℤ) (s : LoopState G) :
    (stepDecile ctx p s).progressTrace = s.progressTrace := by
  unfold stepDecile
  split <;> simp [spi_progressTrace]

theorem stepDecile_canceled (ctx : LoopCtx G B) (p : ℤ) (s : LoopState G) :
    (stepDecile ctx p s).canceled = s.canceled := by
  unfold stepDecile
  split <;> simp [spi_canceled]

theorem stepDecile_aborted (ctx : LoopCtx G B) (p : ℤ) (s : LoopState G) :
    (stepDecile ctx p s).aborted = s.aborted := by
  unfold stepDecile
  split <;> simp [spi_aborted]

theorem stepDecile_infoTrace (ctx : LoopCtx G B) (p : ℤ) (s : LoopState G) :
    (stepDecile ctx p s).infoTrace
      = s.infoTrace ++ (if p % 10 = 0 ∧ p ≠ s.lastProgress then [InfoMsg.decile p] else []) := by
  unfold stepDecile
  split <;> simp [spi_infoTrace]

theorem stepFinal_sink (ctx : LoopCtx G B) (i : ℕ) (s : LoopState G) :
    (stepFinal ctx i s).sink = s.sink := by
  unfold stepFinal
  split <;> simp [spi_sink]

theorem stepFinal_nb (ctx : LoopCtx G B) (i : ℕ) (s : LoopState G) :
    (stepFinal ctx i s).nb = s.nb := by
  unfold stepFinal
  split <;> simp [spi_nb]

theorem stepFinal_progressTrace (ctx : LoopCtx G B) (i : ℕ) (s : LoopState G) :
    (stepFinal ctx i s).progressTrace = s.progressTrace := by
  unfold stepFinal
  split <;> simp [spi_progressTrace]

theorem stepFinal_canceled (ctx : LoopCtx G B) (i : ℕ) (s : LoopState G) :
    (stepFinal ctx i s).canceled = s.canceled := by
  unfold stepFinal
  split <;> simp [spi_canceled]

theorem stepFinal_aborted (ctx : LoopCtx G B) (i : ℕ) (s : LoopState G) :
    (stepFinal ctx i s).aborted = s.aborted := by
  unfold stepFinal
  split <;> simp [spi_aborted]

theorem stepFinal_infoTrace (ctx : LoopCtx G B) (i : ℕ) (s : LoopState G) :
    (stepFinal ctx i s).infoTrace
      = s.infoTrace ++ (if i + 1 = ctx.total then [InfoMsg.finalization] else []) := by
  unfold stepFinal
  split <;> simp [spi_infoTrace]

theorem runLoop_nil (ctx : LoopCtx G B) (i : ℕ) (s : LoopState G) :
    runLoop ctx i [] s = s := rfl

theorem runLoop_cons_cancel (ctx : LoopCtx G B) (i : ℕ) (f : Feature G)
    (rest : List (Feature G)) (s : LoopState G)
    (h : (safe_is_canceled ctx.fb s).1 = true) :
    runLoop ctx i (f :: rest) s = { (safe_is_canceled ctx.fb s).2 with canceled := true } := by
  simp [runLoop, h]

theorem runLoop_cons_skip (ctx : LoopCtx G B) (i : ℕ) (f : Feature G)
    (rest : List (Feature G)) (s : LoopState G)
    (h1 : (safe_is_canceled ctx.fb s).1 = false)
    (h2 : computeProrata ctx.ops f ctx.interLayer ctx.spatialIndex ctx.fieldsToProrate = none) :
    runLoop ctx i (f :: rest) s = runLoop ctx (i + 1) rest (safe_is_canceled ctx.fb s).2 := by
  simp [runLoop, h1, h2]

theorem runLoop_cons_abort (ctx : LoopCtx G B) (i : ℕ) (f : Feature G)
    (rest : List (Feature G)) (s : LoopState G) (pv : List (String × PyFloat))
    (h1 : (safe_is_canceled ctx.fb s).1 = false)
    (h2 : computeProrata ctx.ops f ctx.interLayer ctx.spatialIndex ctx.fieldsToProrate = some pv)
    (h3 : (doSetProgress ctx.fb (progressPercent ctx.total i)
        (stepSink ctx f pv (safe_is_canceled ctx.fb s).2)).1 = true) :
    runLoop ctx i (f :: rest) s
      = { (doSetProgress ctx.fb (progressPercent ctx.total i)
            (stepSink ctx f pv (safe_is_canceled ctx.fb s).2)).2 with aborted := true } := by
  simp [runLoop, h1, h2, h3]

theorem runLoop_cons_go (ctx : LoopCtx G B) (i : ℕ) (f : Feature G)
    (rest : List (Feature G)) (s : LoopState G) (pv : List (String × PyFloat))
    (h1 : (safe_is_canceled ctx.fb s).1 = false)
    (h2 : computeProrata ctx.ops f ctx.interLayer ctx.spatialIndex ctx.fieldsToProrate = some pv)
    (h3 : (doSetProgress ctx.fb (progressPercent ctx.total i)
        (stepSink ctx f pv (safe_is_canceled ctx.fb s).2)).1 = false) :
    runLoop ctx i (f :: rest) s
      = runLoop ctx (i + 1) rest
          (stepFinal ctx i (stepDecile ctx (progressPercent ctx.total i)
            (doSetProgress ctx.fb (progressPercent ctx.total i)
              (stepSink ctx f pv (safe_is_canceled ctx.fb s).2)).2)) := by
  simp [runLoop, h1, h2, h3]

/-! ## Loop inductions -/

theorem runLoop_sink_nb (ctx : LoopCtx G B) (feats : List (Feature G)) :
    ∀ i s0, (runLoop ctx i feats s0).canceled = false →
      (runLoop ctx i feats s0).aborted = false →
      (runLoop ctx i feats s0).sink
          = s0.sink ++ (feats.filter (featNonEmpty ctx.ops)).map (builtFeature ctx)
        ∧ (runLoop ctx i feats s0).nb
          = s0.nb + (feats.filter (featNonEmpty ctx.ops)).length := by
  induction feats with
  | nil =>
    intro i s0 _ _
    simp [runLoop_nil]
  | cons f rest ih =>
    intro i s0 hc ha
    cases hcan : (safe_is_canceled ctx.fb s0).1 with
    | true =>
      rw [runLoop_cons_cancel ctx i f rest s0 hcan] at hc
      simp at hc
    | false =>
      cases hp : computeProrata ctx.ops f ctx.interLayer ctx.spatialIndex ctx.fieldsToProrate with
      | none =>
        have hskip : featNonEmpty ctx.ops f = false :=
          (computeProrata_eq_none_iff ctx.ops f ctx.interLayer ctx.spatialIndex
            ctx.fieldsToProrate).1 hp
        rw [runLoop_cons_skip ctx i f rest s0 hcan hp] at hc ha ⊢
        obtain ⟨h1, h2⟩ := ih (i + 1) _ hc ha
        refine ⟨?_, ?_⟩
        · rw [h1, sic_sink, List.filter_cons, hskip]
          simp
        · rw [h2, sic_nb, List.filter_cons, hskip]
          simp
      | some pv =>
        have hkeep : featNonEmpty ctx.ops f = true := by
          by_contra hne
          have := (computeProrata_eq_none_iff ctx.ops f ctx.interLayer ctx.spatialIndex
            ctx.fieldsToProrate).2 (Bool.eq_false_iff.2 hne ▸ rfl)
          rw [this] at hp
          cases hp
        cases hdp : (doSetProgress ctx.fb (progressPercent ctx.total i)
            (stepSink ctx f pv (safe_is_canceled ctx.fb s0).2)).1 with
        | true =>
          rw [runLoop_cons_abort ctx i f rest s0 pv hcan hp hdp] at ha
          simp at ha
        | false =>
          rw [runLoop_cons_go ctx i f rest s0 pv hcan hp hdp] at hc ha ⊢
          obtain ⟨h1, h2⟩ := ih (i + 1) _ hc ha
          have hbuilt : createProrataFeature f ctx.outputFields pv = builtFeature ctx f := by
            unfold builtFeature
            rw [hp]
            rfl
          refine ⟨?_, ?_⟩
          · rw [h1, stepFinal_sink, stepDecile_sink, dsp_sink, stepSink_sink, sic_sink,
              List.filter_cons, hkeep, hbuilt]
            simp
          · rw [h2, stepFinal_nb, stepDecile_nb, dsp_nb, stepSink_nb, sic_nb,
              List.filter_cons, hkeep]
            simp
            omega

theorem count_final_decile_ite (c : Prop) [Decidable c] (p : ℤ) :
    (if c then [InfoMsg.decile p] else []).count InfoMsg.finalization = 0 := by
  split <;> rfl

theorem runLoop_final_count (ctx : LoopCtx G B) (feats : List (Feature G)) :
    ∀ i s0, i + feats.length = ctx.total →
      (runLoop ctx i feats s0).canceled = false →
      (runLoop ctx i feats s0).aborted = false →
      (runLoop ctx i feats s0).infoTrace.count .finalization
        = s0.infoTrace.count .finalization
          + (match feats.getLast? with
             | Option.none => 0
             | some f => if featNonEmpty ctx.ops f then 1 else 0) := by
  induction feats with
  | nil =>
    intro i s0 _ _ _
    simp [runLoop_nil]
  | cons f rest ih =>
    intro i s0 hi hc ha
    cases hcan : (safe_is_canceled ctx.fb s0).1 with
    | true =>
      rw [runLoop_cons_cancel ctx i f rest s0 hcan] at hc
      simp at hc
    | false =>
      cases hp : computeProrata ctx.ops f ctx.interLayer ctx.spatialIndex ctx.fieldsToProrate with
      | none =>
        have hskip : featNonEmpty ctx.ops f = false :=
          (computeProrata_eq_none_iff ctx.ops f ctx.interLayer ctx.spatialIndex
            ctx.fieldsToProrate).1 hp
        rw [runLoop_cons_skip ctx i f rest s0 hcan hp] at hc ha ⊢
        cases rest with
        | nil =>
          rw [runLoop_nil]
          simp [sic_infoTrace, hskip]
        | cons r rs =>
          have hi' : (i + 1) + (r :: rs).length = ctx.total := by
            simp at hi ⊢
            omega
          rw [ih (i + 1) _ hi' hc ha, sic_infoTrace, List.getLast?_cons_cons]
      | some pv =>
        have hkeep : featNonEmpty ctx.ops f = true := by
          by_contra hne
          have := (computeProrata_eq_none_iff ctx.ops f ctx.interLayer ctx.spatialIndex
            ctx.fieldsToProrate).2 (Bool.eq_false_iff.2 hne ▸ rfl)
          rw [this] at hp
          cases hp
        cases hdp : (doSetProgress ctx.fb (progressPercent ctx.total i)
            (stepSink ctx f pv (safe_is_canceled ctx.fb s0).2)).1 with
        | true =>
          rw [runLoop_cons_abort ctx i f rest s0 pv hcan hp hdp] at ha
          simp at ha
        | false =>
          rw [runLoop_cons_go ctx i f rest s0 pv hcan hp hdp] at hc ha ⊢
          cases rest with
          | nil =>
            have hlast : i + 1 = ctx.total := by
              simp at hi
              omega
            rw [runLoop_nil, stepFinal_infoTrace, if_pos hlast, stepDecile_infoTrace,
              dsp_infoTrace, stepSink_infoTrace, sic_infoTrace]
            rw [List.count_append, List.count_append, count_final_decile_ite]
            simp [hkeep]
          | cons r rs =>
            have hne : ¬(i + 1 = ctx.total) := by
              simp at hi
              omega
            have hi' : (i + 1) + (r :: rs).length = ctx.total := by
              simp at hi ⊢
              omega
            rw [ih (i + 1) _ hi' hc ha, stepFinal_infoTrace, if_neg hne,
              stepDecile_infoTrace, dsp_infoTrace, stepSink_infoTrace, sic_infoTrace,
              List.getLast?_cons_cons]
            rw [List.count_append, List.count_append, count_final_decile_ite]
            simp

theorem progressTrace_append_inv (p : ℤ) (t : List ℤ)
    (hs : t.Sorted (· ≤ ·)) (hb : ∀ q ∈ t, 0 ≤ q ∧ q ≤ 100)
    (hle : ∀ q ∈ t, q ≤ p) (hp0 : 0 ≤ p) (hp100 : p ≤ 100) :
    (t ++ [p]).Sorted (· ≤ ·) ∧ ∀ q ∈ t ++ [p], 0 ≤ q ∧ q ≤ 100 := by
  constructor
  · show List.Pairwise (· ≤ ·) (t ++ [p])
    rw [List.pairwise_append]
    refine ⟨hs, List.pairwise_singleton _ p, ?_⟩
    intro a ha b hb2
    simp at hb2
    subst hb2
    exact hle a ha
  · intro q hq
    rcases List.mem_append.1 hq with h | h
    · exact hb q h
    · simp at h
      subst h
      exact ⟨hp0, hp100⟩

theorem runLoop_progress (ctx : LoopCtx G B) (feats : List (Feature G)) :
    ∀ i s0, i + feats.length = ctx.total →
      s0.progressTrace.Sorted (· ≤ ·) →
      (∀ q ∈ s0.progressTrace, 0 ≤ q ∧ q ≤ 100) →
      (∀ q ∈ s0.progressTrace, q ≤ progressPercent ctx.total i) →
      (runLoop ctx i feats s0).progressTrace.Sorted (· ≤ ·)
        ∧ ∀ q ∈ (runLoop ctx i feats s0).progressTrace, 0 ≤ q ∧ q ≤ 100 := by
  induction feats with
  | nil =>
    intro i s0 _ hs hb _
    rw [runLoop_nil]
    exact ⟨hs, hb⟩
  | cons f rest ih =>
    intro i s0 hi hs hb hle
    have hp100 : progressPercent ctx.total i ≤ 100 :=
      progressPercent_le_hundred ctx.total i (by simp at hi; omega)
    have hp0 : 0 ≤ progressPercent ctx.total i := progressPercent_nonneg ctx.total i
    cases hcan : (safe_is_canceled ctx.fb s0).1 with
    | true =>
      rw [runLoop_cons_cancel ctx i f rest s0 hcan]
      have ht : ({ (safe_is_canceled ctx.fb s0).2 with canceled := true } :
          LoopState G).progressTrace = s0.progressTrace := by
        rw [show ({ (safe_is_canceled ctx.fb s0).2 with canceled := true } :
            LoopState G).progressTrace = (safe_is_canceled ctx.fb s0).2.progressTrace from rfl,
          sic_progressTrace]
      rw [ht]
      exact ⟨hs, hb⟩
    | false =>
      cases hp : computeProrata ctx.ops f ctx.interLayer ctx.spatialIndex ctx.fieldsToProrate with
      | none =>
        rw [runLoop_cons_skip ctx i f rest s0 hcan hp]
        apply ih (i + 1) _ (by simp at hi ⊢; omega)
        · rw [sic_progressTrace]
          exact hs
        · rw [sic_progressTrace]
          exact hb
        · rw [sic_progressTrace]
          intro q hq
          exact le_trans (hle q hq) (progressPercent_mono ctx.total i)
      | some pv =>
        have htr : (doSetProgress ctx.fb (progressPercent ctx.total i)
            (stepSink ctx f pv (safe_is_canceled ctx.fb s0).2)).2.progressTrace
            = s0.progressTrace ++ (if ctx.fb.isSome then [progressPercent ctx.total i] else []) := by
          rw [dsp_progressTrace, stepSink_progressTrace, sic_progressTrace]
        have hinv : (doSetProgress ctx.fb (progressPercent ctx.total i)
              (stepSink ctx f pv (safe_is_canceled ctx.fb s0).2)).2.progressTrace.Sorted (· ≤ ·)
            ∧ (∀ q ∈ (doSetProgress ctx.fb (progressPercent ctx.total i)
                (stepSink ctx f pv (safe_is_canceled ctx.fb s0).2)).2.progressTrace,
                0 ≤ q ∧ q ≤ 100)
            ∧ ∀ q ∈ (doSetProgress ctx.fb (progressPercent ctx.total i)
                (stepSink ctx f pv (safe_is_canceled ctx.fb s0).2)).2.progressTrace,
                q ≤ progressPercent ctx.total (i + 1) := by
          rw [htr]
          cases hfb : ctx.fb.isSome with
          | false =>
            rw [show (if (false : Bool) = true then [progressPercent ctx.total i]
                else ([] : List ℤ)) = [] from by simp, List.append_nil]
            refine ⟨hs, hb, ?_⟩
            intro q hq
            exact le_trans (hle q hq) (progressPercent_mono ctx.total i)
          | true =>
            rw [show (if (true : Bool) = true then [progressPercent ctx.total i]
                else ([] : List ℤ)) = [progressPercent ctx.total i] from by simp]
            obtain ⟨h1, h2⟩ := progressTrace_append_inv (progressPercent ctx.total i)
              s0.progressTrace hs hb hle hp0 hp100
            refine ⟨h1, h2, ?_⟩
            intro q hq
            rcases List.mem_append.1 hq with h | h
            · exact le_trans (hle q h) (progressPercent_mono ctx.total i)
            · simp at h
              subst h
              exact progressPercent_mono ctx.total i
        cases hdp : (doSetProgress ctx.fb (progressPercent ctx.total i)
            (stepSink ctx f pv (safe_is_canceled ctx.fb s0).2)).1 with
        | true =>
          rw [runLoop_cons_abort ctx i f rest s0 pv hcan hp hdp]
          exact ⟨hinv.1, hinv.2.1⟩
        | false =>
          rw [runLoop_cons_go ctx i f rest s0 pv hcan hp hdp]
          apply ih (i + 1) _ (by simp at hi ⊢; omega)
          · rw [stepFinal_progressTrace, stepDecile_progressTrace]
            exact hinv.1
          · rw [stepFinal_progressTrace, stepDecile_progressTrace]
            exact hinv.2.1
          · rw [stepFinal_progressTrace, stepDecile_progressTrace]
            exact hinv.2.2

/-! ## Degenerate candidates -/

theorem prorataStep_not_good (ops : GeomOps G B) (geom : G) (fields : List String)
    (d : List (String × PyFloat)) (f : Feature G)
    (h : goodCandidate ops geom f = false) :
    prorataStep ops geom fields d f = d := by
  unfold goodCandidate at h
  unfold prorataStep
  cases hg : f.geom with
  | none => rfl
  | some g =>
    rw [hg] at h
    dsimp only at h ⊢
    cases hint : ops.intersection g geom with
    | none => rfl
    | some interGeom =>
      rw [hint] at h
      dsimp only at h ⊢
      simp only [Bool.and_eq_false_iff, Bool.not_eq_false', decide_eq_false_iff_not,
        not_lt] at h
      rcases h with h | h
      · simp [h]
      · by_cases he : ops.isEmpty interGeom
        · simp [he]
        · simp [he, if_pos h]

theorem foldl_prorataStep_filter (ops : GeomOps G B) (geom : G) (fields : List String)
    (cands : List (Feature G)) :
    ∀ init, cands.foldl (prorataStep ops geom fields) init
      = (cands.filter (goodCandidate ops geom)).foldl (prorataStep ops geom fields) init := by
  induction cands with
  | nil => intro init; rfl
  | cons c tl ih =>
    intro init
    cases hc : goodCandidate ops geom c with
    | true => simp [List.filter_cons, hc, ih]
    | false =>
      rw [List.foldl_cons, prorataStep_not_good ops geom fields init c hc,
        List.filter_cons]
      simp [hc, ih]

/-! ## Candidate retrieval -/

theorem get_intersecting_eq_filter (ops : GeomOps G B) (layer : List (Feature G))
    (fids : List ℕ) (geom : G) :
    get_intersecting_features ops layer fids geom
      = layer.filter (fun f =>
          fids.contains f.fid &&
            (match f.geom with
             | some g => ops.intersects g geom
             | Option.none => false)) := by
  unfold get_intersecting_features
  by_cases h : fids = []
  · subst h
    simp
  · rw [if_neg h]

/-! ## Constant-value accumulation -/

theorem prorataStep_good_const (ops : GeomOps G B) (tg : G) (field : String) (v c : ℚ)
    (f : Feature G) (g : G)
    (hg : f.geom = some g) (hint : ops.intersection g tg = some g)
    (hemp : ops.isEmpty g = false) (harea : 0 < ops.area g)
    (hval : safe_float (f.attribute field) = .finite v)
    (d : List (String × PyFloat)) (hd : dget d field = some (.finite c)) :
    prorataStep ops tg [field] d f = dset d field (.finite (c + v)) := by
  unfold prorataStep
  rw [hg]
  dsimp only
  rw [hint]
  dsimp only
  simp only [hemp, Bool.false_eq_true, if_false]
  rw [if_neg (not_le.2 harea)]
  simp only [List.foldl_cons, List.foldl_nil]
  rw [hval, hd]
  have hane : ops.area g ≠ 0 := ne_of_gt harea
  have hdiv : v * ops.area g / ops.area g = v := by
    rw [mul_div_assoc, div_self hane, mul_one]
  simp [pfMul, pfDiv, pfAdd, hane, hdiv]

theorem prorata_fold_const (ops : GeomOps G B) (tg : G) (field : String) (v : ℚ)
    (srcs : List (Feature G))
    (hsrc : ∀ f ∈ srcs, ∃ g, f.geom = some g ∧ ops.intersection g tg = some g ∧
        ops.isEmpty g = false ∧ 0 < ops.area g ∧
        safe_float (f.attribute field) = .finite v) :
    ∀ d c, dget d field = some (.finite c) →
      dget (srcs.foldl (prorataStep ops tg [field]) d) field
        = some (.finite (c + srcs.length * v)) := by
  induction srcs with
  | nil =>
    intro d c h
    rw [List.foldl_nil, h]
    norm_num
  | cons f tl ih =>
    intro d c h
    obtain ⟨g, hg, hint, hemp, harea, hval⟩ := hsrc f (List.mem_cons_self f tl)
    rw [List.foldl_cons, prorataStep_good_const ops tg field v c f g hg hint hemp harea hval d h]
    have hd' : dget (dset d field (.finite (c + v))) field = some (.finite (c + v)) := by
      rw [dget_dset]
      simp
    rw [ih (fun f hf => hsrc f (List.mem_cons_of_mem _ hf)) (dset d field (.finite (c + v)))
      (c + v) hd']
    simp only [Option.some.injEq, PyFloat.finite.injEq, List.length_cons]
    push_cast
    ring

/-! ## Output schema lemmas -/

theorem prepareOutputFields_cons (s : List String) (f : String) (tl : List String) :
    prepareOutputFields s (f :: tl)
      = prepareOutputFields
          (if s.contains (f ++ "_prorata") then s else s ++ [f ++ "_prorata"]) tl := rfl

theorem mem_prepareOutputFields_of_mem (fields : List String) :
    ∀ s name, name ∈ s → name ∈ prepareOutputFields s fields := by
  induction fields with
  | nil => intro s name h; exact h
  | cons f tl ih =>
    intro s name h
    rw [prepareOutputFields_cons]
    apply ih
    split
    · exact h
    · exact List.mem_append.2 (Or.inl h)

theorem prorata_name_mem_prepareOutputFields (fields : List String) :
    ∀ s f, f ∈ fields → (f ++ "_prorata") ∈ prepareOutputFields s fields := by
  induction fields with
  | nil => intro s f h; cases h
  | cons a tl ih =>
    intro s f h
    rw [prepareOutputFields_cons]
    rcases List.mem_cons.1 h with h | h
    · subst h
      apply mem_prepareOutputFields_of_mem
      by_cases hcont : s.contains (f ++ "_prorata") = true
      · rw [if_pos hcont]
        exact List.elem_iff.1 hcont
      · rw [if_neg hcont]
        exact List.mem_append.2 (Or.inr (by simp))
    · exact ih _ f h

theorem prepareOutputFields_nodup (fields : List String) :
    ∀ s, s.Nodup → (prepareOutputFields s fields).Nodup := by
  induction fields with
  | nil => intro s h; exact h
  | cons a tl ih =>
    intro s h
    rw [prepareOutputFields_cons]
    apply ih
    by_cases hcont : s.contains (a ++ "_prorata") = true
    · rw [if_pos hcont]
      exact h
    · rw [if_neg hcont]
      have hnm : (a ++ "_prorata") ∉ s := fun hm => hcont (List.elem_iff.2 hm)
      simp [List.nodup_append, h, hnm]

theorem prepareOutputFields_fixed (fields : List String) :
    ∀ s, (∀ f ∈ fields, (f ++ "_prorata") ∈ s) → prepareOutputFields s fields = s := by
  induction fields with
  | nil => intro s _; rfl
  | cons a tl ih =>
    intro s h
    rw [prepareOutputFields_cons]
    have hmem : (a ++ "_prorata") ∈ s := h a (List.mem_cons_self a tl)
    rw [if_pos (List.elem_iff.2 hmem)]
    exact ih s (fun f hf => h f (List.mem_cons_of_mem _ hf))

/-! ## Unfolding the aggregator on a live target -/

theorem computeProrata_eq_fold (ops : GeomOps G B) (feat : Feature G) (tg : G)
    (interLayer : List (Feature G)) (spatialIndex : List (ℕ × B)) (fields : List String)
    (hg : feat.geom = some tg) (hne : ops.isEmpty tg = false) :
    computeProrata ops feat interLayer spatialIndex fields
      = some ((get_intersecting_features ops interLayer
            (indexIntersects ops spatialIndex (ops.boundingBox tg)) tg).foldl
          (prorataStep ops tg fields) (dictInit fields)) := by
  unfold computeProrata
  rw [hg]
  dsimp only
  simp [hne]

/-! ## Destructuring a completed run -/

theorem processAlgorithm_some (ops : GeomOps G B) (fb : Option Feedback) (inp : AlgoInput G)
    (h1 : inp.inputFeatures.isEmpty = false) (h2 : inp.interFeatures.isEmpty = false) :
    processAlgorithm ops fb inp = some (
      if (runLoop (algoCtx ops fb inp) 0 inp.inputFeatures (algoStart fb)).aborted then
        runLoop (algoCtx ops fb inp) 0 inp.inputFeatures (algoStart fb)
      else safe_push_info fb
        (.summary (runLoop (algoCtx ops fb inp) 0 inp.inputFeatures (algoStart fb)).nb)
        (runLoop (algoCtx ops fb inp) 0 inp.inputFeatures (algoStart fb))) := by
  unfold processAlgorithm
  rw [if_neg (by simp [h1, h2])]
  rfl

theorem processAlgorithm_inputs (ops : GeomOps G B) (fb : Option Feedback)
    (inp : AlgoInput G) (s : LoopState G) (h : processAlgorithm ops fb inp = some s) :
    inp.inputFeatures.isEmpty = false ∧ inp.interFeatures.isEmpty = false := by
  unfold processAlgorithm at h
  by_cases hcond : (inp.inputFeatures.isEmpty || inp.interFeatures.isEmpty) = true
  · rw [if_pos hcond] at h
    cases h
  · simp only [Bool.or_eq_true, not_or, Bool.not_eq_true] at hcond
    exact hcond

theorem processAlgorithm_dest (ops : GeomOps G B) (fb : Option Feedback)
    (inp : AlgoInput G) (s : LoopState G) (h : processAlgorithm ops fb inp = some s) :
    s = (if (runLoop (algoCtx ops fb inp) 0 inp.inputFeatures (algoStart fb)).aborted then
        runLoop (algoCtx ops fb inp) 0 inp.inputFeatures (algoStart fb)
      else safe_push_info fb
        (.summary (runLoop (algoCtx ops fb inp) 0 inp.inputFeatures (algoStart fb)).nb)
        (runLoop (algoCtx ops fb inp) 0 inp.inputFeatures (algoStart fb))) := by
  obtain ⟨h1, h2⟩ := processAlgorithm_inputs ops fb inp s h
  rw [processAlgorithm_some ops fb inp h1 h2] at h
  exact (Option.some.inj h).symm

theorem algoStart_sink (fb : Option Feedback) : (algoStart fb : LoopState G).sink = [] := by
  rw [algoStart, spi_sink, spi_sink]

theorem algoStart_nb (fb : Option Feedback) : (algoStart fb : LoopState G).nb = 0 := by
  rw [algoStart, spi_nb, spi_nb]

theorem algoStart_progressTrace (fb : Option Feedback) :
    (algoStart fb : LoopState G).progressTrace = [] := by
  rw [algoStart, spi_progressTrace, spi_progressTrace]

theorem algoStart_infoTrace (fb : Option Feedback) :
    (algoStart fb : LoopState G).infoTrace = [InfoMsg.fieldsList, InfoMsg.indexCreation] := by
  rw [algoStart, spi_infoTrace, spi_infoTrace]
  rfl

/-- After a non-aborted run, the returned state differs from the loop
state only by the summary message: all the observables used by the
claims coincide. -/
theorem processAlgorithm_dest_ok (ops : GeomOps G B) (fb : Option Feedback)
    (inp : AlgoInput G) (s : LoopState G) (h : processAlgorithm ops fb inp = some s)
    (ha : s.aborted = false) :
    (runLoop (algoCtx ops fb inp) 0 inp.inputFeatures (algoStart fb)).aborted = false
    ∧ s.sink = (runLoop (algoCtx ops fb inp) 0 inp.inputFeatures (algoStart fb)).sink
    ∧ s.nb = (runLoop (algoCtx ops fb inp) 0 inp.inputFeatures (algoStart fb)).nb
    ∧ s.canceled = (runLoop (algoCtx ops fb inp) 0 inp.inputFeatures (algoStart fb)).canceled
    ∧ s.progressTrace
        = (runLoop (algoCtx ops fb inp) 0 inp.inputFeatures (algoStart fb)).progressTrace
    ∧ s.infoTrace.count .finalization
        = (runLoop (algoCtx ops fb inp) 0 inp.inputFeatures
            (algoStart fb)).infoTrace.count .finalization := by
  have hd := processAlgorithm_dest ops fb inp s h
  cases hab : (runLoop (algoCtx ops fb inp) 0 inp.inputFeatures (algoStart fb)).aborted with
  | true =>
    rw [if_pos hab] at hd
    rw [hd] at ha
    rw [ha] at hab
    cases hab
  | false =>
    rw [if_neg (by rw [hab]; exact Bool.false_ne_true)] at hd
    subst hd
    refine ⟨rfl, spi_sink _ _ _, spi_nb _ _ _, spi_canceled _ _ _, spi_progressTrace _ _ _, ?_⟩
    rw [spi_infoTrace, List.count_append]
    rfl

/-! ## Concrete runs for witnesses -/

/-! ## The claims -/

/-- Claim C5: `_safe_float` maps `None` to `0.0`, the locale string
`"3,5"` to `3.5`, the float `3.5` to `3.5`, and the unparsable string
`"abc"` to `0.0`.  It returns a float for every input and never raises:
`safe_float` is a total function into `PyFloat` by construction, every
internal conversion failure being an explicit fallthrough. -/
theorem safe_float_coercion_values :
    safe_float .none = .finite 0
    ∧ safe_float (.str ("3,5")) = .finite (7 / 2)
    ∧ safe_float (.float (.finite (7 / 2))) = .finite (7 / 2)
    ∧ safe_float (.str ("abc")) = .finite 0 := by
  refine ⟨rfl, by with_unfolding_all decide, rfl, by decide⟩

/-- Claim C10: the first generic `float()` cast inside `_safe_float`
accepts the strings `"nan"` and `"inf"`, so the function returns the
non-finite floats NaN and +infinity instead of `0.0`; such a value then
propagates into the prorata accumulator (a source carrying `"nan"` in
the requested field turns the accumulated value into NaN). -/
theorem safe_float_nonfinite_propagates :
    pyFloatOfString ("nan") = some .nan
    ∧ safe_float (.str ("nan")) = .nan
    ∧ pyFloatOfString ("inf") = some (.inf true)
    ∧ safe_float (.str ("inf")) = .inf true
    ∧ computeProrata cellOps tMain [srcNan] (buildSpatialIndex cellOps [srcNan]) ["pop"]
        = some [("pop", PyFloat.nan)] := by
  refine ⟨by decide, by decide, by decide, by decide, by with_unfolding_all decide⟩

/-- Claim C4: `computeProrata` returns absent exactly when the target
geometry is null or empty; for a non-empty target with no intersecting
candidates it returns the all-zero dict, which contains every requested
field with value `0.0`. -/
theorem computeProrata_absent_iff_empty_and_zero_on_no_candidates (ops : GeomOps G B)
    (feat : Feature G) (interLayer : List (Feature G)) (spatialIndex : List (ℕ × B))
    (fields : List String) :
    (computeProrata ops feat interLayer spatialIndex fields = none
      ↔ feat.geom = Option.none ∨ ∃ g, feat.geom = some g ∧ ops.isEmpty g = true)
    ∧ (∀ g, feat.geom = some g → ops.isEmpty g = false →
        get_intersecting_features ops interLayer
          (indexIntersects ops spatialIndex (ops.boundingBox g)) g = [] →
        computeProrata ops feat interLayer spatialIndex fields = some (dictInit fields)
        ∧ ∀ f ∈ fields, dget (dictInit fields) f = some (.finite 0)) := by
  constructor
  · rw [computeProrata_eq_none_iff]
    unfold featNonEmpty
    cases hg : feat.geom with
    | none => simp
    | some g =>
      by_cases he : ops.isEmpty g
      · simp [he]
      · simp [he]
  · intro g hg hne hcands
    rw [computeProrata_eq_fold ops feat g interLayer spatialIndex fields hg hne, hcands]
    exact ⟨rfl, fun f hf => dget_dictInit fields f hf⟩

/-- Claim C4, witness run: a live target with no candidates at all
still yields the all-zero result. -/
theorem computeProrata_absent_iff_empty_and_zero_on_no_candidates_witness :
    computeProrata cellOps tMain [] [] ["pop"] = some (dictInit ["pop"])
    ∧ ∀ f ∈ ["pop"], dget (dictInit ["pop"]) f = some (.finite 0) :=
  (computeProrata_absent_iff_empty_and_zero_on_no_candidates cellOps tMain [] [] ["pop"]).2
    ({0, 1} : Finset ℕ) rfl (by decide) (by decide)

/-- Claim C6: a candidate whose exact intersection with the target is
null or empty, or whose own polygon area is not strictly positive,
leaves the accumulators unchanged; the whole accumulation equals the
accumulation over the filtered good candidates only, and every good
candidate has a strictly positive polygon area — so the division
`intersection_area / source_area` is only evaluated with a strictly
positive divisor. -/
theorem prorataStep_degenerate_skip (ops : GeomOps G B) (geom : G) (fields : List String) :
    (∀ (d : List (String × PyFloat)) (f : Feature G) (g : G), f.geom = some g →
        (ops.intersection g geom = Option.none
          ∨ (∃ ig, ops.intersection g geom = some ig ∧ ops.isEmpty ig = true)
          ∨ ops.area g ≤ 0) →
        prorataStep ops geom fields d f = d)
    ∧ (∀ (cands : List (Feature G)) (init : List (String × PyFloat)),
        cands.foldl (prorataStep ops geom fields) init
          = (cands.filter (goodCandidate ops geom)).foldl (prorataStep ops geom fields) init)
    ∧ (∀ f : Feature G, goodCandidate ops geom f = true →
        ∃ g, f.geom = some g ∧ 0 < ops.area g) := by
  refine ⟨?_, ?_, ?_⟩
  · intro d f g hg hcase
    apply prorataStep_not_good
    unfold goodCandidate
    rw [hg]
    dsimp only
    rcases hcase with h | ⟨ig, hig, hemp⟩ | h
    · rw [h]
    · rw [hig]
      dsimp only
      simp [hemp]
    · cases hint : ops.intersection g geom with
      | none => rfl
      | some ig =>
        dsimp only
        have hn : ¬(0 < ops.area g) := not_lt.2 h
        simp [hn]
  · exact fun cands init => foldl_prorataStep_filter ops geom fields cands init
  · intro f hgood
    unfold goodCandidate at hgood
    cases hg : f.geom with
    | none =>
      rw [hg] at hgood
      cases hgood
    | some g =>
      rw [hg] at hgood
      dsimp only at hgood
      refine ⟨g, rfl, ?_⟩
      cases hint : ops.intersection g geom with
      | none =>
        rw [hint] at hgood
        cases hgood
      | some ig =>
        rw [hint] at hgood
        dsimp only at hgood
        simp only [Bool.and_eq_true, decide_eq_true_eq] at hgood
        exact hgood.2

/-- Claim C6, witness: a candidate touching no cell of the target (its
exact intersection is empty) contributes nothing. -/
theorem prorataStep_degenerate_skip_witness :
    prorataStep cellOps ({0, 1} : Finset ℕ) ["pop"] [("pop", PyFloat.finite 0)] srcFar
      = [("pop", PyFloat.finite 0)] :=
  (prorataStep_degenerate_skip cellOps ({0, 1} : Finset ℕ) ["pop"]).1 _ srcFar
    ({5} : Finset ℕ) rfl (Or.inr (Or.inl ⟨∅, by decide, by decide⟩))

/-- Claim C9: output-schema preparation yields exactly one
`<field>_prorata` entry per requested field (the input schema has
distinct field names, a `QgsFields` invariant), and running the
preparation a second time over its own output returns it unchanged. -/
theorem prepareOutputFields_unique_idempotent (inputFields fieldsToProrate : List String)
    (h : inputFields.Nodup) :
    (∀ f ∈ fieldsToProrate,
        (prepareOutputFields inputFields fieldsToProrate).count (f ++ "_prorata") = 1)
    ∧ prepareOutputFields (prepareOutputFields inputFields fieldsToProrate) fieldsToProrate
        = prepareOutputFields inputFields fieldsToProrate := by
  refine ⟨?_, ?_⟩
  · intro f hf
    exact List.count_eq_one_of_mem
      (prepareOutputFields_nodup fieldsToProrate inputFields h)
      (prorata_name_mem_prepareOutputFields fieldsToProrate inputFields f hf)
  · exact prepareOutputFields_fixed fieldsToProrate _
      (fun f hf => prorata_name_mem_prepareOutputFields fieldsToProrate inputFields f hf)

/-- Claim C9, witness at a concrete schema. -/
theorem prepareOutputFields_unique_idempotent_witness :
    (prepareOutputFields ["name"] ["pop"]).count ("pop" ++ "_prorata") = 1
    ∧ prepareOutputFields (prepareOutputFields ["name"] ["pop"]) ["pop"]
        = prepareOutputFields ["name"] ["pop"] := by
  obtain ⟨h1, h2⟩ := prepareOutputFields_unique_idempotent ["name"] ["pop"] (by decide)
  exact ⟨h1 ("pop") (by decide), h2⟩

/-- Claim C1, counterexample: two sources exactly partition the target
(their intersections with the target are the sources themselves, they
are disjoint, and their areas sum to the target area), both carry
`pop = 5`, yet `computeProrata` returns `10 = 2 * 5` for `pop`, not
`5`: the per-source ratio `intersection_area / source_area` is `1` for
each of the `N` sources, so the sum is `N * v`. -/
theorem computeProrata_partition_counterexample :
    ({0} : Finset ℕ) ∩ ({1} : Finset ℕ) = ∅
    ∧ cellOps.intersection ({0} : Finset ℕ) ({0, 1} : Finset ℕ) = some ({0} : Finset ℕ)
    ∧ cellOps.intersection ({1} : Finset ℕ) ({0, 1} : Finset ℕ) = some ({1} : Finset ℕ)
    ∧ cellOps.area ({0} : Finset ℕ) + cellOps.area ({1} : Finset ℕ)
        = cellOps.area ({0, 1} : Finset ℕ)
    ∧ safe_float (srcLeft.attribute ("pop")) = .finite 5
    ∧ safe_float (srcRight.attribute ("pop")) = .finite 5
    ∧ (computeProrata cellOps tMain [srcLeft, srcRight]
          (buildSpatialIndex cellOps [srcLeft, srcRight]) ["pop"]).map
        (fun d => dget d ("pop"))
      = some (some (.finite 10))
    ∧ PyFloat.finite 10 ≠ PyFloat.finite 5 := by
  with_unfolding_all decide

/-- Claim C1 as amended: when the target is exactly partitioned by `N`
non-overlapping sources each carrying the constant value `v` in the
requested field, `computeProrata` returns exactly `N * v` (the sum of
the source values), not `v`: each source contributes
`v * intersection_area / source_area = v` since its intersection with
the target is the source itself.  (The partition-area hypothesis is
part of the scenario; the result does not depend on it.) -/
theorem computeProrata_partition_sum (ops : GeomOps G B) (feat : Feature G) (tg : G)
    (srcs : List (Feature G)) (field : String) (v : ℚ)
    (htg : feat.geom = some tg) (hne : ops.isEmpty tg = false)
    (hsrc : ∀ f ∈ srcs, ∃ g, f.geom = some g ∧
        ops.boxIntersects (ops.boundingBox g) (ops.boundingBox tg) = true ∧
        ops.intersects g tg = true ∧
        ops.intersection g tg = some g ∧
        ops.isEmpty g = false ∧ 0 < ops.area g ∧
        safe_float (f.attribute field) = .finite v)
    (_hpart : (srcs.map (fun f => match f.geom with
        | some g => ops.area g
        | Option.none => 0)).sum = ops.area tg) :
    ∃ d, computeProrata ops feat srcs (buildSpatialIndex ops srcs) [field] = some d
      ∧ dget d field = some (.finite ((srcs.length : ℚ) * v)) := by
  rw [computeProrata_eq_fold ops feat tg srcs (buildSpatialIndex ops srcs) [field] htg hne]
  have hcands : get_intersecting_features ops srcs
      (indexIntersects ops (buildSpatialIndex ops srcs) (ops.boundingBox tg)) tg = srcs := by
    rw [get_intersecting_eq_filter]
    apply List.filter_eq_self.mpr
    intro f hf
    obtain ⟨g, hg, hbox, hints, _, _, _, _⟩ := hsrc f hf
    rw [Bool.and_eq_true]
    constructor
    · apply List.elem_iff.2
      unfold indexIntersects
      apply List.mem_map.2
      refine ⟨(f.fid, ops.boundingBox g), ?_, rfl⟩
      apply List.mem_filter.2
      refine ⟨?_, hbox⟩
      unfold buildSpatialIndex
      apply List.mem_filterMap.2
      refine ⟨f, hf, ?_⟩
      rw [hg]
      rfl
    · rw [hg]
      dsimp only
      exact hints
  rw [hcands]
  refine ⟨_, rfl, ?_⟩
  have hfold := prorata_fold_const ops tg field v srcs
    (fun f hf => by
      obtain ⟨g, hg, _, _, hint, hemp, harea, hval⟩ := hsrc f hf
      exact ⟨g, hg, hint, hemp, harea, hval⟩)
    (dictInit [field]) 0
    (dget_dictInit [field] field (by simp))
  rw [hfold, zero_add]

/-- Claim C1, witness of the amended statement at the counterexample
input: the partition of `tMain` by `srcLeft` and `srcRight` with
constant value 5 yields `2 * 5`. -/
theorem computeProrata_partition_sum_witness :
    ∃ d, computeProrata cellOps tMain [srcLeft, srcRight]
        (buildSpatialIndex cellOps [srcLeft, srcRight]) ["pop"] = some d
      ∧ dget d ("pop")
          = some (.finite ((([srcLeft, srcRight] : List (Feature (Finset ℕ))).length : ℚ) * 5)) := by
  apply computeProrata_partition_sum cellOps tMain ({0, 1} : Finset ℕ) [srcLeft, srcRight]
    ("pop") 5 rfl (by decide)
  · intro f hf
    rcases List.mem_cons.1 hf with rfl | hf
    · exact ⟨({0} : Finset ℕ), rfl, by decide, by decide, by decide, by decide,
        by with_unfolding_all decide, by with_unfolding_all decide⟩
    · rcases List.mem_cons.1 hf with rfl | hf
      · exact ⟨({1} : Finset ℕ), rfl, by decide, by decide, by decide, by decide,
          by with_unfolding_all decide, by with_unfolding_all decide⟩
      · cases hf
  · with_unfolding_all decide

/-- Claim C2 (the code contradicts it): the driver protects `pushInfo`
and `isCanceled` behind safe wrappers, but calls
`feedback.setProgress(...)` directly, guarded only by
`feedback is not None`.  A feedback object whose `setProgress` raises
(while `pushInfo` and `isCanceled` behave normally and never cancel)
makes the run abort with the exception, on an input whose run with a
well-behaved feedback completes normally. -/
theorem processAlgorithm_aborts_on_raising_setProgress :
    (processAlgorithm cellOps (some raisingFeedback) demoInputB).map (fun s => s.aborted)
      = some true
    ∧ (processAlgorithm cellOps (some wfFeedback) demoInputB).map (fun s => s.aborted)
      = some false := by
  constructor
  · with_unfolding_all decide
  · with_unfolding_all decide

/-- Claim C3, counterexample: a run whose last target feature has an
empty geometry completes without cancellation and without abort, yet
the finalization message is never emitted — the `i + 1 == total` check
sits after the `continue` that skips empty-geometry features, so it is
never reached on the last iteration. -/
theorem processAlgorithm_finalization_missing :
    (processAlgorithm cellOps (some wfFeedback) demoInputB).map
      (fun s => (s.canceled, s.aborted, s.infoTrace.count .finalization))
      = some (false, false, 0) := by
  with_unfolding_all decide

/-- Claim C3 as amended: in every run that completes without
cancellation (and without the loop raising), the finalization message
is emitted at most once — exactly once when the last target feature has
a non-empty geometry (its iteration reaches the `i + 1 == total` check,
where progress is 100), and zero times when the last feature is
skipped. -/
theorem processAlgorithm_finalization_count (ops : GeomOps G B) (fb : Option Feedback)
    (inp : AlgoInput G) (s : LoopState G)
    (h : processAlgorithm ops fb inp = some s)
    (hc : s.canceled = false) (ha : s.aborted = false) :
    s.infoTrace.count .finalization
      = (match inp.inputFeatures.getLast? with
         | Option.none => 0
         | some f => if featNonEmpty ops f then 1 else 0) := by
  obtain ⟨hab, _, _, hcanc, _, hcount⟩ := processAlgorithm_dest_ok ops fb inp s h ha
  rw [hcount]
  rw [runLoop_final_count (algoCtx ops fb inp) inp.inputFeatures 0 (algoStart fb)
    (by simp [algoCtx]) (by rw [← hcanc]; exact hc) hab]
  rw [algoStart_infoTrace]
  rw [show ([InfoMsg.fieldsList, InfoMsg.indexCreation] : List InfoMsg).count .finalization = 0
    from rfl]
  rw [Nat.zero_add]
  rfl

/-- Claim C3, witness of the amended statement: a completed run whose
last feature is live emits the finalization message exactly once. -/
theorem processAlgorithm_finalization_count_witness :
    demoFinalA.infoTrace.count .finalization
      = (match demoInputA.inputFeatures.getLast? with
         | Option.none => 0
         | some f => if featNonEmpty cellOps f then 1 else 0) := by
  have h : processAlgorithm cellOps (some wfFeedback) demoInputA = some demoFinalA := by
    with_unfolding_all rfl
  exact processAlgorithm_finalization_count cellOps (some wfFeedback) demoInputA demoFinalA h
    (by with_unfolding_all rfl) (by with_unfolding_all rfl)

/-- Claim C7: in every run that completes without cancellation (and
without the loop raising), the sink holds exactly one output record per
input feature with non-empty geometry, in order — so empty-geometry
features yield no record and are skipped without error — and the
success counter `nb_entites` equals the number of non-empty-geometry
features. -/
theorem processAlgorithm_one_output_per_nonempty (ops : GeomOps G B) (fb : Option Feedback)
    (inp : AlgoInput G) (s : LoopState G)
    (h : processAlgorithm ops fb inp = some s)
    (hc : s.canceled = false) (ha : s.aborted = false) :
    s.sink = (inp.inputFeatures.filter (featNonEmpty ops)).map
        (builtFeature (algoCtx ops fb inp))
    ∧ s.nb = (inp.inputFeatures.filter (featNonEmpty ops)).length := by
  obtain ⟨hab, hsink, hnb, hcanc, _, _⟩ := processAlgorithm_dest_ok ops fb inp s h ha
  obtain ⟨h1, h2⟩ := runLoop_sink_nb (algoCtx ops fb inp) inp.inputFeatures 0 (algoStart fb)
    (by rw [← hcanc]; exact hc) hab
  constructor
  · rw [hsink, h1, algoStart_sink, List.nil_append]
    rfl
  · rw [hnb, h2, algoStart_nb, Nat.zero_add]
    rfl

/-- Claim C7, witness: the run on one empty-geometry and one live
target writes exactly the one record of the live target. -/
theorem processAlgorithm_one_output_per_nonempty_witness :
    demoFinalA.sink = (demoInputA.inputFeatures.filter (featNonEmpty cellOps)).map
        (builtFeature (algoCtx cellOps (some wfFeedback) demoInputA))
    ∧ demoFinalA.nb = (demoInputA.inputFeatures.filter (featNonEmpty cellOps)).length := by
  have h : processAlgorithm cellOps (some wfFeedback) demoInputA = some demoFinalA := by
    with_unfolding_all rfl
  exact processAlgorithm_one_output_per_nonempty cellOps (some wfFeedback) demoInputA
    demoFinalA h (by with_unfolding_all rfl) (by with_unfolding_all rfl)

/-- Claim C8: over any run (completed, canceled or aborted), the
sequence of values passed to `feedback.setProgress` consists of
integers between 0 and 100 and is monotonically non-decreasing.
(`round((i + 1) / total * 100)` is a monotone function of `i` bounded
by `round(100) = 100`, and skipped features never lower `i`.) -/
theorem processAlgorithm_progress_monotone_bounded (ops : GeomOps G B) (fb : Option Feedback)
    (inp : AlgoInput G) (s : LoopState G) (h : processAlgorithm ops fb inp = some s) :
    s.progressTrace.Sorted (· ≤ ·) ∧ ∀ p ∈ s.progressTrace, 0 ≤ p ∧ p ≤ 100 := by
  have hd := processAlgorithm_dest ops fb inp s h
  have htr : s.progressTrace
      = (runLoop (algoCtx ops fb inp) 0 inp.inputFeatures (algoStart fb)).progressTrace := by
    cases hab : (runLoop (algoCtx ops fb inp) 0 inp.inputFeatures (algoStart fb)).aborted with
    | true =>
      rw [if_pos hab] at hd
      rw [hd]
    | false =>
      rw [if_neg (by rw [hab]; exact Bool.false_ne_true)] at hd
      rw [hd, spi_progressTrace]
  rw [htr]
  exact runLoop_progress (algoCtx ops fb inp) inp.inputFeatures 0 (algoStart fb)
    (by simp [algoCtx])
    (by rw [algoStart_progressTrace]; exact List.sorted_nil)
    (by rw [algoStart_progressTrace]; intro q hq; cases hq)
    (by rw [algoStart_progressTrace]; intro q hq; cases hq)

/-- Claim C8, witness: the demo run reports the sorted in-range
sequence of progress values. -/
theorem processAlgorithm_progress_monotone_bounded_witness :
    demoFinalA.progressTrace.Sorted (· ≤ ·)
    ∧ ∀ p ∈ demoFinalA.progressTrace, 0 ≤ p ∧ p ≤ 100 := by
  have h : processAlgorithm cellOps (some wfFeedback) demoInputA = some demoFinalA := by
    with_unfolding_all rfl
  exact processAlgorithm_progress_monotone_bounded cellOps (some wfFeedback) demoInputA
    demoFinalA h
